import Mathlib

/-!
Verification of the decompilation orchestration and bytecode-repair pipeline
of this repository (src/decompiler/) against its natural-language
specification, via a shallow embedding in Lean.

Conventions of the embedding:
* Python strings are Lean `String`s; Python lists/tuples are Lean `List`s.
* External collaborators (the `ast.parse` syntax validator, the coding-agent
  subprocesses, the regex scanners over decompiled text) are passed in as
  function parameters: the embedded control flow is exactly the source's,
  universally quantified over the collaborator behaviour.
* A Python exception that the source does not catch is modelled with
  `Except`: a raised exception is `Except.error`.
-/

namespace EN16

/-! ## Character-list string utilities (models of Python `in`, `str.count`) -/

/-- `leadsWith pat s`: `s` starts with `pat` (over character lists). -/
def leadsWith : List Char → List Char → Bool
  | [], _ => true
  | _ :: _, [] => false
  | p :: ps, c :: cs => p == c && leadsWith ps cs

/-- `occursIn pat s`: `pat` occurs as a contiguous substring of `s`
(model of Python's `pat in s`). -/
def occursIn (pat : List Char) : List Char → Bool
  | [] => leadsWith pat []
  | c :: cs => leadsWith pat (c :: cs) || occursIn pat cs

/-- Model of Python's `pat in s` on strings. -/
def containsSub (s pat : String) : Bool :=
  occursIn pat.data s.data

/-- Auxiliary for `countSub`: counts non-overlapping occurrences of the
nonempty pattern `p :: ps`, scanning left to right, as Python's `str.count`.
`fuel` is structural (it only needs to bound the number of scan steps, and
every step consumes at least one character). -/
def countSubNE (p : Char) (ps : List Char) : Nat → List Char → Nat
  | 0, _ => 0
  | _ + 1, [] => 0
  | fuel + 1, c :: cs =>
    if leadsWith (p :: ps) (c :: cs) then
      1 + countSubNE p ps fuel (List.drop ps.length cs)
    else
      countSubNE p ps fuel cs

/-- Model of Python's `s.count(pat)` (non-overlapping, left to right). -/
def countSub (s pat : String) : Nat :=
  match pat.data with
  | [] => s.data.length + 1
  | p :: ps => countSubNE p ps s.data.length s.data

/-- Model of Python's `str.strip()` (whitespace from both ends). -/
def isWS (c : Char) : Bool :=
  c == ' ' || c == '\t' || c == '\n' || c == '\r'

def pyStrip (s : String) : String :=
  String.mk (((s.data.dropWhile isWS).reverse.dropWhile isWS).reverse)

/-- Model of Python's `s.split(sep)` for a one-character separator. -/
def splitChGo (sep : Char) : List Char → List Char → List String
  | [], acc => [String.mk acc.reverse]
  | c :: cs, acc =>
    if c == sep then String.mk acc.reverse :: splitChGo sep cs []
    else splitChGo sep cs (c :: acc)

def pySplitCh (s : String) (sep : Char) : List String :=
  splitChGo sep s.data []

/-- Model of Python's `s[:n]`. -/
def pyTake (s : String) (n : Nat) : String :=
  String.mk (s.data.take n)

/-- Model of Python's `s.startswith(pat)`. -/
def pyStartsWith (s pat : String) : Bool :=
  leadsWith pat.data s.data

/-- Model of Python's `s.endswith(pat)`. -/
def pyEndsWith (s pat : String) : Bool :=
  leadsWith pat.data.reverse s.data.reverse

/-- Code-point lexicographic order on character lists (model of Python's
string comparison). -/
def listLexLE : List Char → List Char → Bool
  | [], _ => true
  | _ :: _, [] => false
  | a :: as, b :: bs =>
    if a < b then true else if b < a then false else listLexLE as bs

def pyStrLE (a b : String) : Bool :=
  listLexLE a.data b.data

/-! ## DecompileResult and the backend runners
(src/decompiler/standalone_decompile.py) -/

/-- `MAX_INCOMPLETE` sentinel (standalone_decompile.py line 84). -/
def MAX_INCOMPLETE : Nat := 999

/-- `DecompileResult` (standalone_decompile.py lines 87-98). -/
structure DecompileResult where
  source : String
  tool : String
  incomplete_count : Nat
  error : Option String := none
deriving DecidableEq

/-- `DecompileResult.is_complete` (standalone_decompile.py lines 96-98). -/
def DecompileResult.is_complete (r : DecompileResult) : Bool :=
  r.incomplete_count == 0 && r.error == none

/-- `decompile_with_decompyle3` (standalone_decompile.py lines 125-142),
embedded over the subprocess result `(stdout, stderr, returncode)` returned
by `run_command`.  Note: this backend performs no syntax validation of its
output; a successful run is reported with `incomplete_count = 0`. -/
def decompile_with_decompyle3 (stdout stderr : String) (returncode : Int) :
    DecompileResult :=
  if containsSub (stdout ++ stderr) "Unsupported Python version" then
    ⟨"", "decompyle3", MAX_INCOMPLETE, some "Unsupported Python version"⟩
  else if returncode ≠ 0 ∨ pyStrip stdout = "" then
    ⟨"", "decompyle3", MAX_INCOMPLETE,
      some (if stderr = "" then "Empty output" else pyTake stderr 200)⟩
  else if !(pySplitCh stdout '\n').any
      (fun ln => pyStrip ln ≠ "" && !pyStartsWith ln "#") then
    ⟨"", "decompyle3", MAX_INCOMPLETE, some "Only comments in output"⟩
  else
    ⟨stdout, "decompyle3", 0, none⟩

/-- `decompile_with_pycdc` (standalone_decompile.py lines 145-162).
`pycdcBuilt` models `PYCDC.exists()`; `validate` models `validate_syntax`
(bytecode_utils.py lines 578-598, a call into the external parser). -/
def decompile_with_pycdc (pycdcBuilt : Bool) (validate : String → Bool)
    (stdout stderr : String) : DecompileResult :=
  if !pycdcBuilt then
    ⟨"", "pycdc", MAX_INCOMPLETE, some "pycdc not built"⟩
  else if pyStrip stdout = "" then
    ⟨"", "pycdc", MAX_INCOMPLETE,
      some (if stderr = "" then "Empty output" else pyTake stderr 200)⟩
  else
    let markers := countSub stdout "# WARNING: Decompyle incomplete"
    let markers := if validate stdout then markers else max markers 1
    ⟨stdout, "pycdc", markers, none⟩

/-- `decompile_with_pylingual` (standalone_decompile.py lines 165-181).
`callResult` models the guarded `pylingual_decompile` call: `.error e` is an
exception caught by the `except Exception` handler, `.ok none` a result with
no source attribute.  Note: no syntax validation of the output. -/
def decompile_with_pylingual (hasPylingual : Bool)
    (callResult : Except String (Option String)) : DecompileResult :=
  if !hasPylingual then
    ⟨"", "pylingual", MAX_INCOMPLETE, some "pylingual not installed"⟩
  else
    match callResult with
    | .error e => ⟨"", "pylingual", MAX_INCOMPLETE, some (pyTake e 200)⟩
    | .ok none => ⟨"", "pylingual", MAX_INCOMPLETE, some "Empty output"⟩
    | .ok (some source) =>
      if pyStrip source = "" then
        ⟨"", "pylingual", MAX_INCOMPLETE, some "Empty output"⟩
      else
        ⟨source, "pylingual", countSub source "# WARNING:" + countSub source "# TODO:", none⟩

/-- The post-pipeline syntax re-validation inside `process_file`
(standalone_decompile.py lines 471-478): a non-empty outcome whose source
fails to parse is replaced by a failed outcome. -/
def process_file_validate (validate : String → Bool) (r : DecompileResult) :
    DecompileResult :=
  let valid := if r.source ≠ "" then validate r.source else false
  if r.source ≠ "" ∧ valid = false then
    ⟨"# SYNTAX ERROR - Decompilation produced invalid Python\n" ++ r.source,
      r.tool, max r.incomplete_count 1, some "Syntax error in output"⟩
  else r

/-! ## Repair-pass counting (src/decompiler/standalone_decompile.py 328-350)

`count_false_passes` (lines 187-211) scans the decompiled text with regexes
and consults the bytecode oracle; `fill_incomplete_sections` (lines 214-257)
rewrites the text from the oracle.  Both are functions of the source text
(the disassembly is fixed per artifact) and are passed in as parameters
`fp`/`fill`; the control flow below is the source's. -/

/-- `_count_incomplete` (standalone_decompile.py lines 328-338).
`hasBc` models the truthiness of the `bytecode` string. -/
def count_incomplete (fp : String → Nat) (validate : String → Bool)
    (hasBc : Bool) (r : DecompileResult) : Nat :=
  if r.source = "" then MAX_INCOMPLETE
  else
    let c := r.incomplete_count + (if hasBc then fp r.source else 0)
    if validate r.source then c else max c 1

/-- `_try_improve_with_bytecode` (standalone_decompile.py lines 341-350). -/
def try_improve_with_bytecode (fp : String → Nat) (validate : String → Bool)
    (fill : String → String) (hasBc : Bool) (r : DecompileResult) :
    DecompileResult :=
  if !hasBc || r.source = "" then r
  else
    let filled := fill r.source
    let new_count :=
      count_incomplete fp validate true ⟨filled, r.tool ++ "+bytecode", 0, none⟩
    if new_count < count_incomplete fp validate true r then
      ⟨filled, r.tool ++ "+bytecode", new_count, none⟩
    else r

/-! ## Directory fan-out (src/decompiler/standalone_decompile.py 425-524)

`process_file` (lines 463-484) contains no exception handler, and the result
loop (lines 490-522) demands each worker's value with `future.result()`,
which re-raises any exception the worker raised.  A worker computation is
therefore modelled as `Except String DecompileResult` (`.error` = an uncaught
Python exception), and the aggregation loop as a monadic fold that stops at
the first `.error`, exactly as the re-raise aborts the `for` loop. -/

/-- The `stats` dictionary (standalone_decompile.py line 436). -/
structure RunStats where
  total : Nat
  complete : Nat
  incomplete : Nat
  failed : Nat
  by_tool : List (String × Nat)
deriving DecidableEq

def initStats : RunStats := ⟨0, 0, 0, 0, []⟩

/-- `stats["by_tool"][tool] = stats["by_tool"].get(tool, 0) + 1`. -/
def bumpTool (bt : List (String × Nat)) (tool : String) : List (String × Nat) :=
  if bt.any (fun p => p.1 == tool) then
    bt.map (fun p => if p.1 == tool then (p.1, p.2 + 1) else p)
  else bt ++ [(tool, 1)]

/-- The per-result statistics update (standalone_decompile.py lines 494-506). -/
def update_stats (st : RunStats) (r : DecompileResult) : RunStats :=
  let st := { st with total := st.total + 1, by_tool := bumpTool st.by_tool r.tool }
  if r.is_complete then { st with complete := st.complete + 1 }
  else if r.error.isSome then { st with failed := st.failed + 1 }
  else { st with incomplete := st.incomplete + 1 }

/-- The aggregation loop of `decompile_directory` (standalone_decompile.py
lines 487-522): each element is one worker's outcome (`.error` = an exception
the worker raised, re-raised by `future.result()` with no handler around it). -/
def decompile_directory_collect (outcomes : List (Except String DecompileResult)) :
    Except String RunStats :=
  outcomes.foldlM (fun st o => do pure (update_stats st (← o))) initStats

/-! ## LLM recovery pass (src/decompiler/llm_recovery.py 409-610)

The coding-agent subprocess responses (after `extract_code_from_response`)
are modelled as `Option String` parameters; `validate` models
`validate_syntax`; `findItems` models "`find_incomplete_functions` or
`find_incomplete_classes` found an item"; `splice` models the line-range
splicing together with `strip_leftover_warnings`.  The control flow is that
of `recover_incomplete_file`. -/

/-- `fix_syntax_errors` (llm_recovery.py lines 409-426): `agentCode` is the
code extracted from the agent response, re-validated before being returned. -/
def fix_syntax_errors (validate : String → Bool) (agentCode : Option String)
    (source : String) : Option String :=
  if validate source then some source
  else
    match agentCode with
    | some code => if validate code then some code else none
    | none => none

/-- The second half of `recover_incomplete_file` (llm_recovery.py lines
553-610), from the incomplete-item scan onwards: `working` is
`working_source`, `count` is `recovered_count`. -/
def recoverStage2 (validate : String → Bool) (fullAgent2 : Option String)
    (findItems : String → Bool) (splice : String → String)
    (source working : String) (count : Nat) : String × Nat :=
  if !findItems working && containsSub working "# WARNING: Decompyle incomplete" then
    match fullAgent2 with
    | some recovered =>
      if validate recovered && !containsSub recovered "# WARNING:" then
        (recovered, count + 1)
      else (working, count)
    | none => (working, count)
  else if !findItems working then (working, count)
  else
    let result := splice working
    if validate result then (result, count) else (source, 0)

/-- `recover_incomplete_file` (llm_recovery.py lines 530-610). -/
def recover_incomplete_file (validate : String → Bool)
    (fixAgent fullAgent1 fullAgent2 : Option String)
    (findItems : String → Bool) (splice : String → String)
    (source : String) : String × Nat :=
  if validate source then
    recoverStage2 validate fullAgent2 findItems splice source source 0
  else
    match fix_syntax_errors validate fixAgent source with
    | some fixed => recoverStage2 validate fullAgent2 findItems splice source fixed 1
    | none =>
      match fullAgent1 with
      | some recovered => if validate recovered then (recovered, 1) else (source, 0)
      | none => (source, 0)

/-! ## Python constant values (the literals handled by constant recovery)

`PyObj` models the marshalled constants a code object's constant pool can
hold (and, for `pdict`, the mapping that `_trace_stack_value` builds;
Python dicts keep first-insertion order of keys, so a dict is an ordered
association list). -/

inductive PyObj where
  | pnone
  | pbool (b : Bool)
  | pint (n : Int)
  | pstr (s : String)
  | ptuple (xs : List PyObj)
  | plist (xs : List PyObj)
  | pdict (entries : List (PyObj × PyObj))

mutual

/-- Structural equality on `PyObj` (model of Python `==` on the literal
values that appear here; no automatic derivation exists for this nested
inductive, so it is written out). -/
def PyObj.beq : PyObj → PyObj → Bool
  | .pnone, .pnone => true
  | .pbool a, .pbool b => a == b
  | .pint a, .pint b => a == b
  | .pstr a, .pstr b => a == b
  | .ptuple xs, .ptuple ys => PyObj.beqL xs ys
  | .plist xs, .plist ys => PyObj.beqL xs ys
  | .pdict xs, .pdict ys => PyObj.beqP xs ys
  | _, _ => false

def PyObj.beqL : List PyObj → List PyObj → Bool
  | [], [] => true
  | x :: xs, y :: ys => PyObj.beq x y && PyObj.beqL xs ys
  | _, _ => false

def PyObj.beqP : List (PyObj × PyObj) → List (PyObj × PyObj) → Bool
  | [], [] => true
  | (k1, v1) :: xs, (k2, v2) :: ys =>
    PyObj.beq k1 k2 && PyObj.beq v1 v2 && PyObj.beqP xs ys
  | _, _ => false

end

theorem PyObj.beqL_sound {xs : List PyObj}
    (ih : ∀ x ∈ xs, ∀ y, PyObj.beq x y = true → x = y) :
    ∀ {ys}, PyObj.beqL xs ys = true → xs = ys := by
  induction xs with
  | nil =>
    intro ys h
    cases ys with
    | nil => rfl
    | cons y ys => exact absurd h (by simp [PyObj.beqL])
  | cons x xs ihl =>
    intro ys h
    cases ys with
    | nil => exact absurd h (by simp [PyObj.beqL])
    | cons y ys =>
      simp only [PyObj.beqL, Bool.and_eq_true] at h
      rw [ih x (by simp) y h.1, ihl (fun z hz => ih z (by simp [hz])) h.2]

theorem PyObj.beqP_sound {xs : List (PyObj × PyObj)}
    (ih : ∀ p ∈ xs, ∀ y,
      (PyObj.beq p.1 y = true → p.1 = y) ∧ (PyObj.beq p.2 y = true → p.2 = y)) :
    ∀ {ys}, PyObj.beqP xs ys = true → xs = ys := by
  induction xs with
  | nil =>
    intro ys h
    cases ys with
    | nil => rfl
    | cons y ys => exact absurd h (by simp [PyObj.beqP])
  | cons x xs ihl =>
    intro ys h
    obtain ⟨k1, v1⟩ := x
    cases ys with
    | nil => exact absurd h (by simp [PyObj.beqP])
    | cons y ys =>
      obtain ⟨k2, v2⟩ := y
      simp only [PyObj.beqP, Bool.and_eq_true] at h
      have e1 : k1 = k2 := (ih (k1, v1) (by simp) k2).1 h.1.1
      have e2 : v1 = v2 := (ih (k1, v1) (by simp) v2).2 h.1.2
      have e3 : xs = ys := ihl (fun z hz => ih z (by simp [hz])) h.2
      rw [e1, e2, e3]

theorem PyObj.eq_of_beq : ∀ (x y : PyObj), PyObj.beq x y = true → x = y
  | .pnone, y, h => by
    cases y
    case pnone => rfl
    all_goals exact absurd h (by simp [PyObj.beq])
  | .pbool a, y, h => by
    cases y
    case pbool b =>
      simp only [PyObj.beq, beq_iff_eq] at h
      rw [h]
    all_goals exact absurd h (by simp [PyObj.beq])
  | .pint a, y, h => by
    cases y
    case pint b =>
      simp only [PyObj.beq, beq_iff_eq] at h
      rw [h]
    all_goals exact absurd h (by simp [PyObj.beq])
  | .pstr a, y, h => by
    cases y
    case pstr b =>
      simp only [PyObj.beq, beq_iff_eq] at h
      rw [h]
    all_goals exact absurd h (by simp [PyObj.beq])
  | .ptuple xs, y, h => by
    cases y
    case ptuple ys =>
      exact congrArg PyObj.ptuple (PyObj.beqL_sound
        (fun x hx y hy => PyObj.eq_of_beq x y hy) (by simpa [PyObj.beq] using h))
    all_goals exact absurd h (by simp [PyObj.beq])
  | .plist xs, y, h => by
    cases y
    case plist ys =>
      exact congrArg PyObj.plist (PyObj.beqL_sound
        (fun x hx y hy => PyObj.eq_of_beq x y hy) (by simpa [PyObj.beq] using h))
    all_goals exact absurd h (by simp [PyObj.beq])
  | .pdict es, y, h => by
    cases y
    case pdict fs =>
      exact congrArg PyObj.pdict (PyObj.beqP_sound
        (fun p hp y => ⟨fun hy => PyObj.eq_of_beq p.1 y hy,
          fun hy => PyObj.eq_of_beq p.2 y hy⟩)
        (by simpa [PyObj.beq] using h))
    all_goals exact absurd h (by simp [PyObj.beq])
termination_by x _ _ => sizeOf x
decreasing_by
  all_goals
    first
      | (simp only [PyObj.ptuple.sizeOf_spec, PyObj.plist.sizeOf_spec,
           PyObj.pdict.sizeOf_spec]
         have := List.sizeOf_lt_of_mem hx
         omega)
      | (simp only [PyObj.pdict.sizeOf_spec]
         have h1 := List.sizeOf_lt_of_mem hp
         have h2 : sizeOf p.1 < sizeOf p := by
           obtain ⟨p1, p2⟩ := p; simp only [Prod.mk.sizeOf_spec]; omega
         have h3 : sizeOf p.2 < sizeOf p := by
           obtain ⟨p1, p2⟩ := p; simp only [Prod.mk.sizeOf_spec]; omega
         omega)

theorem PyObj.beqL_refl {xs : List PyObj} (ih : ∀ x ∈ xs, PyObj.beq x x = true) :
    PyObj.beqL xs xs = true := by
  induction xs with
  | nil => rfl
  | cons z zs ihz =>
    simp [PyObj.beqL, ih z (by simp), ihz (fun w hw => ih w (by simp [hw]))]

theorem PyObj.beqP_refl {xs : List (PyObj × PyObj)}
    (ih : ∀ p ∈ xs, PyObj.beq p.1 p.1 = true ∧ PyObj.beq p.2 p.2 = true) :
    PyObj.beqP xs xs = true := by
  induction xs with
  | nil => rfl
  | cons z zs ihz =>
    obtain ⟨k, v⟩ := z
    simp [PyObj.beqP, (ih (k, v) (by simp)).1, (ih (k, v) (by simp)).2,
      ihz (fun w hw => ih w (by simp [hw]))]

theorem PyObj.beq_refl : ∀ (x : PyObj), PyObj.beq x x = true
  | .pnone => rfl
  | .pbool a => by simp [PyObj.beq]
  | .pint a => by simp [PyObj.beq]
  | .pstr a => by simp [PyObj.beq]
  | .ptuple xs => by
    simpa [PyObj.beq] using PyObj.beqL_refl (fun x hx => PyObj.beq_refl x)
  | .plist xs => by
    simpa [PyObj.beq] using PyObj.beqL_refl (fun x hx => PyObj.beq_refl x)
  | .pdict es => by
    simpa [PyObj.beq] using PyObj.beqP_refl (fun p hp =>
      ⟨PyObj.beq_refl p.1, PyObj.beq_refl p.2⟩)
termination_by x => sizeOf x
decreasing_by
  all_goals
    first
      | (simp only [PyObj.ptuple.sizeOf_spec, PyObj.plist.sizeOf_spec,
           PyObj.pdict.sizeOf_spec]
         have := List.sizeOf_lt_of_mem hx
         omega)
      | (simp only [PyObj.pdict.sizeOf_spec]
         have h1 := List.sizeOf_lt_of_mem hp
         have h2 : sizeOf p.1 < sizeOf p := by
           obtain ⟨p1, p2⟩ := p; simp only [Prod.mk.sizeOf_spec]; omega
         have h3 : sizeOf p.2 < sizeOf p := by
           obtain ⟨p1, p2⟩ := p; simp only [Prod.mk.sizeOf_spec]; omega
         omega)

instance : DecidableEq PyObj := fun x y =>
  if h : PyObj.beq x y = true then .isTrue (PyObj.eq_of_beq x y h)
  else .isFalse (fun he => h (he ▸ PyObj.beq_refl x))

/-- Python `d[k] = v` on an ordered dict: overwrite in place if the key is
present (keeping its position), else append. -/
def dictSet (d : List (PyObj × PyObj)) (k v : PyObj) : List (PyObj × PyObj) :=
  if d.any (fun p => p.1 == k) then
    d.map (fun p => if p.1 == k then (p.1, v) else p)
  else d ++ [(k, v)]

/-- Python `d.get(k)` on the ordered-association-list dict model. -/
def dictFind (d : List (PyObj × PyObj)) (k : PyObj) : Option PyObj :=
  (d.find? (fun p => p.1 == k)).map (fun p => p.2)

/-! ## Code objects (src/decompiler/bytecode_utils.py)

`CodeObj` carries the `CodeType` fields the analysed functions read.  A
constant-pool entry is either a plain value or a nested code object; the
analysed functions only test for nestedness (`hasattr(c, "co_code")`), never
read a nested code object's content through the pool. -/

inductive PyConst where
  | obj (o : PyObj)
  | codeObject
deriving DecidableEq

def PyConst.isCode : PyConst → Bool
  | .codeObject => true
  | .obj _ => false

structure CodeObj where
  co_name : String
  co_stacksize : Nat
  co_names : List String
  co_code : List Nat
  co_consts : List PyConst
deriving DecidableEq

/-- `is_empty_code_object` (bytecode_utils.py lines 110-133). -/
def is_empty_code_object (c : CodeObj) : Bool :=
  if c.co_consts.any (fun k => k.isCode) then false
  else if 1 < c.co_stacksize then false
  else if !c.co_names.isEmpty then false
  else c.co_code.length ≤ 10

/-- The spec's `CompletenessVerdict` for a function: `classify` is
`is_empty_code_object` with `EMPTY_CONFIRMED` standing for `True`. -/
inductive CompletenessVerdict where
  | EMPTY_CONFIRMED
  | STUB_SUSPECTED
deriving DecidableEq

def classify (c : CodeObj) : CompletenessVerdict :=
  if is_empty_code_object c then .EMPTY_CONFIRMED else .STUB_SUSPECTED

/-- `BytecodeInfo.get_code` (bytecode_utils.py lines 59-68): the
`code_objects` index is an insertion-ordered mapping, modelled as an
association list with distinct keys; exact key lookup first, then the first
entry (in index order) whose key ends in `"." ++ name" (or equals `name`). -/
def get_code (code_objects : List (String × CodeObj)) (name : String) :
    Option CodeObj :=
  match code_objects.find? (fun kv => kv.1 == name) with
  | some kv => some kv.2
  | none =>
    (code_objects.find?
      (fun kv => pyEndsWith kv.1 ("." ++ name) || kv.1 == name)).map (fun kv => kv.2)

/-- `is_truly_empty_function` (bytecode_utils.py lines 186-200). -/
def is_truly_empty_function (code_objects : List (String × CodeObj))
    (func_name : String) : Bool :=
  match get_code code_objects func_name with
  | none => true
  | some c => is_empty_code_object c

/-- Modelled from the spec for a refinement comparison only (§4.1):
"`index.lookup(name) -> CodeUnit | NotFound` — exact match first, then
single-candidate suffix match; raises `Ambiguous` if multiple code units
share the suffix". -/
inductive LookupResult where
  | found (c : CodeObj)
  | notFound
  | ambiguous
deriving DecidableEq

def lookup_spec (code_objects : List (String × CodeObj)) (name : String) :
    LookupResult :=
  match code_objects.find? (fun kv => kv.1 == name) with
  | some kv => .found kv.2
  | none =>
    match code_objects.filter (fun kv => pyEndsWith kv.1 ("." ++ name)) with
    | [] => .notFound
    | [kv] => .found kv.2
    | _ => .ambiguous

/-! ## Constant recovery: instruction tracing
(src/decompiler/bytecode_utils.py 375-512)

`extract_module_constants` builds `instructions = [(offset, opcode, arg), ...]`
from the raw two-byte instruction stream and calls `_trace_stack_value` at
the index of the `STORE_NAME` instruction. -/

structure Instr where
  off : Nat
  op : Nat
  arg : Nat
deriving DecidableEq

/-- Opcode numbers used by the source (bytecode_utils.py lines 396, 439-442). -/
def STORE_NAME : Nat := 90
def LOAD_CONST : Nat := 100
def BUILD_MAP : Nat := 105
def MAP_ADD : Nat := 147
def BUILD_CONST_KEY_MAP : Nat := 156

/-- The instruction-list builder of `extract_module_constants`
(bytecode_utils.py lines 399-406): `arg` is 0 when the stream ends on an
odd byte. -/
def buildInstrs : List Nat → Nat → List Instr
  | [], _ => []
  | [op], off => [⟨off, op, 0⟩]
  | op :: arg :: rest, off => ⟨off, op, arg⟩ :: buildInstrs rest (off + 2)

/-- The backward scan of `_trace_stack_value` for the first `BUILD_MAP` of
the construction sequence (bytecode_utils.py lines 457-470): iterate
`i = store_idx - 1, ..., 0`; on a `BUILD_MAP` followed by `LOAD_CONST` or
`MAP_ADD`, record it and keep scanning for an earlier one; on any other
`BUILD_MAP`, record it and stop. -/
def ffbmGo (instrs : List Instr) (best : Option Nat) : Nat → Option Nat
  | 0 => best
  | i + 1 =>
    match instrs[i]? with
    | some ins =>
      if ins.op == BUILD_MAP then
        let nextOk :=
          match instrs[i + 1]? with
          | some nxt => nxt.op == LOAD_CONST || nxt.op == MAP_ADD
          | none => false
        if nextOk then ffbmGo instrs (some i) i else some i
      else ffbmGo instrs best i
    | none => ffbmGo instrs best i

def findFirstBuildMap (instrs : List Instr) (store_idx : Nat) : Option Nat :=
  ffbmGo instrs none store_idx

/-- The value collection of the `BUILD_CONST_KEY_MAP` case
(bytecode_utils.py lines 498-502): for `j = 0, ..., num-1` the value at
instruction index `i - 2 - j` is prepended when that index is in range and
holds a `LOAD_CONST`; the resulting list is in increasing index order.
An out-of-range constant index is modelled as a skip (the source would
raise there, which equally produces no recovered pair). -/
def gatherVals (instrs : List Instr) (constants : List PyObj) (i : Nat) :
    Nat → List PyObj
  | 0 => []
  | n + 1 =>
    let this :=
      if 2 + n ≤ i then
        match instrs[i - 2 - n]? with
        | some ins =>
          if ins.op == LOAD_CONST then
            match constants[ins.arg]? with
            | some v => [v]
            | none => []
          else []
        | none => []
      else []
    this ++ gatherVals instrs constants i n

/-- One iteration of the forward collection loop of `_trace_stack_value`
(bytecode_utils.py lines 476-507), updating the dict being built. -/
def dictStep (instrs : List Instr) (constants : List PyObj)
    (d : List (PyObj × PyObj)) (i : Nat) : List (PyObj × PyObj) :=
  match instrs[i]? with
  | none => d
  | some ins =>
    if ins.op == MAP_ADD then
      if 2 ≤ i then
        match instrs[i - 2]?, instrs[i - 1]? with
        | some kIns, some vIns =>
          if kIns.op == LOAD_CONST && vIns.op == LOAD_CONST then
            match constants[kIns.arg]?, constants[vIns.arg]? with
            | some k, some v => dictSet d k v
            | _, _ => d
          else d
        | _, _ => d
      else d
    else if ins.op == BUILD_CONST_KEY_MAP then
      match (if 1 ≤ i then instrs[i - 1]? else none) with
      | some keysIns =>
        if keysIns.op == LOAD_CONST then
          match constants[keysIns.arg]? with
          | some (.ptuple ks) =>
            if ks.length == ins.arg then
              let values := gatherVals instrs constants i ins.arg
              if values.length == ins.arg then
                (ks.zip values).foldl (fun d p => dictSet d p.1 p.2) d
              else d
            else d
          | _ => d
        else d
      | none => d
    else d

/-- The forward loop `while i < store_idx` of `_trace_stack_value`
(bytecode_utils.py lines 476-507): one `dictStep` per index
`i = first, ..., stop - 1`. -/
def dictLoop (instrs : List Instr) (constants : List PyObj)
    (first stop : Nat) (d0 : List (PyObj × PyObj)) : List (PyObj × PyObj) :=
  (List.range' first (stop - first)).foldl (dictStep instrs constants) d0

/-- Specification-side collector: the key/value literal pairs the forward
scan encounters at instruction `i`, in encounter order. -/
def pairsAt (instrs : List Instr) (constants : List PyObj) (i : Nat) :
    List (PyObj × PyObj) :=
  match instrs[i]? with
  | none => []
  | some ins =>
    if ins.op == MAP_ADD then
      if 2 ≤ i then
        match instrs[i - 2]?, instrs[i - 1]? with
        | some kIns, some vIns =>
          if kIns.op == LOAD_CONST && vIns.op == LOAD_CONST then
            match constants[kIns.arg]?, constants[vIns.arg]? with
            | some k, some v => [(k, v)]
            | _, _ => []
          else []
        | _, _ => []
      else []
    else if ins.op == BUILD_CONST_KEY_MAP then
      match (if 1 ≤ i then instrs[i - 1]? else none) with
      | some keysIns =>
        if keysIns.op == LOAD_CONST then
          match constants[keysIns.arg]? with
          | some (.ptuple ks) =>
            if ks.length == ins.arg then
              let values := gatherVals instrs constants i ins.arg
              if values.length == ins.arg then ks.zip values else []
            else []
          | _ => []
        else []
      | none => []
    else []

/-- Specification-side collector over the whole window `[first, stop)`. -/
def collectPairs (instrs : List Instr) (constants : List PyObj)
    (first stop : Nat) : List (PyObj × PyObj) :=
  (List.range' first (stop - first)).flatMap (pairsAt instrs constants)

/-- The key/value literal pairs of the whole map-construction window before
`store_idx`, in encounter order. -/
def encounterPairs (instrs : List Instr) (constants : List PyObj)
    (store_idx : Nat) : List (PyObj × PyObj) :=
  match findFirstBuildMap instrs store_idx with
  | none => []
  | some first => collectPairs instrs constants first store_idx

/-- Last-write-wins insertion of a pair list into an (initially empty)
ordered mapping: a later pair overrides an earlier pair with the same key. -/
def lastWriteWins (ps : List (PyObj × PyObj)) : List (PyObj × PyObj) :=
  ps.foldl (fun d p => dictSet d p.1 p.2) []

/-- `_trace_stack_value` (bytecode_utils.py lines 427-512).  An out-of-range
`constants[...]` access (on which the source would raise) is modelled as
`none` / a skipped pair. -/
def trace_stack_value (instrs : List Instr) (store_idx : Nat)
    (constants : List PyObj) : Option PyObj :=
  if store_idx == 0 then none
  else
    match instrs[store_idx - 1]? with
    | none => none
    | some prev =>
      if prev.op == LOAD_CONST then constants[prev.arg]?
      else
        match findFirstBuildMap instrs store_idx with
        | none => none
        | some first =>
          let d := dictLoop instrs constants first store_idx []
          if d.isEmpty then none else some (.pdict d)

/-! ## Constant recovery: missing-name detection
(src/decompiler/bytecode_utils.py 301-372)

`find_missing_module_constants` parses the decompiled source with
`ast.parse` and walks the tree; the parsed module is modelled as the list of
its top-level statements (`ast.iter_child_nodes`) plus the list of all
statements the recursive `ast.walk` reaches.  `parsed = none` models the
`SyntaxError` branch. -/

inductive PyStmt where
  | classDef (name : String)
  | funcDef (name : String)
  | assign (nameTargets : List (Option String))
  | annAssign (nameTarget : Option String)
  | imp (aliases : List (String × Option String))
  | impFrom (aliases : List (String × Option String))
  | other
deriving DecidableEq

/-- The names a top-level statement binds, per the `iter_child_nodes` loop
(bytecode_utils.py lines 320-328): class/function definitions, `Name`
targets of assignments and annotated assignments. -/
def stmtBindings : PyStmt → List String
  | .classDef n => [n]
  | .funcDef n => [n]
  | .assign ts => ts.filterMap id
  | .annAssign t => t.toList
  | _ => []

def bindingNames (stmts : List PyStmt) : List String :=
  stmts.flatMap stmtBindings

/-- `alias.asname or alias.name.split(".")[0]` resp. `alias.asname or
alias.name` (bytecode_utils.py lines 331-337). -/
def aliasBound (splitHead : Bool) (a : String × Option String) : String :=
  match a.2 with
  | some asn => asn
  | none => if splitHead then ((pySplitCh a.1 '.').headD a.1) else a.1

def stmtImports : PyStmt → List String
  | .imp aliases => aliases.map (aliasBound true)
  | .impFrom aliases => aliases.map (aliasBound false)
  | _ => []

def importNames (nodes : List PyStmt) : List String :=
  nodes.flatMap stmtImports

/-- The `STORE_NAME` targets of the module's raw instruction stream
(bytecode_utils.py lines 348-358): `none` models the uncaught `IndexError`
when the stream ends on a lone `STORE_NAME` byte. -/
def storedNamesE : List Nat → List String → Option (List String)
  | [], _ => some []
  | [op], _ => if op == STORE_NAME then none else some []
  | op :: arg :: rest, co_names =>
    if op == STORE_NAME then
      if arg < co_names.length then
        (storedNamesE rest co_names).map (fun s => co_names.getD arg "" :: s)
      else storedNamesE rest co_names
    else storedNamesE rest co_names

/-- `skip_names` (bytecode_utils.py line 346). -/
def skipNames : List String :=
  ["annotations", "object", "type", "Exception", "BaseException"]

/-- Model of Python `sorted` on strings: insertion sort by `≤`. -/
def insertStr (x : String) : List String → List String
  | [] => [x]
  | y :: ys => if pyStrLE x y then x :: y :: ys else y :: insertStr x ys

def sortStrs : List String → List String
  | [] => []
  | x :: xs => insertStr x (sortStrs xs)

/-- `find_missing_module_constants` (bytecode_utils.py lines 301-372):
`parsed` is the `ast.parse` result (`none` = `SyntaxError`, in which case
the source returns `[]`); the outer `none` models the uncaught `IndexError`
of the instruction scan. -/
def find_missing_module_constants (parsed : Option (List PyStmt × List PyStmt))
    (co_names : List String) (bytecode : List Nat) : Option (List String) :=
  match parsed with
  | none => some []
  | some (topLevel, allNodes) =>
    let defined := bindingNames topLevel ++ importNames allNodes
    match storedNamesE bytecode co_names with
    | none => none
    | some stored =>
      let missing := stored.dedup.filter (fun name =>
        !(defined.contains name) &&
        !(skipNames.contains name) &&
        !(pyStartsWith name "_") &&
        !(containsSub name "."))
      some (sortStrs missing)

/-! ## Constant formatting (src/decompiler/bytecode_utils.py 515-564)

`format_constant` renders a recovered value with f-strings over Python's
`repr`.  `repr` of the literal values handled here is modelled below
(`pyRepr`): decimal integers, quoted strings with escaped control
characters, parenthesised tuples, bracketed lists, braced dicts. -/

/-- Decimal digit characters (model of the runtime's integer formatting). -/
def digitChar : Nat → Char
  | 0 => '0'
  | 1 => '1'
  | 2 => '2'
  | 3 => '3'
  | 4 => '4'
  | 5 => '5'
  | 6 => '6'
  | 7 => '7'
  | 8 => '8'
  | _ => '9'

def natDigits : Nat → Nat → List Char → List Char
  | 0, n, acc => digitChar n :: acc
  | fuel + 1, n, acc =>
    if n < 10 then digitChar n :: acc
    else natDigits fuel (n / 10) (digitChar (n % 10) :: acc)

/-- Model of `repr` on `int` (the first argument of `natDigits` is
structural fuel bounding the digit count). -/
def intRepr (n : Int) : String :=
  if n < 0 then String.mk ('-' :: natDigits n.natAbs n.natAbs [])
  else String.mk (natDigits n.toNat n.toNat [])

/-- One escaped character of the string-`repr` model: backslash, the quote
character and the control characters are escaped, everything else is kept. -/
def escChar (q c : Char) : List Char :=
  if c = '\\' then ['\\', '\\']
  else if c = q then ['\\', q]
  else if c = '\n' then ['\\', 'n']
  else if c = '\r' then ['\\', 'r']
  else if c = '\t' then ['\\', 't']
  else [c]

/-- Model of `repr` on `str`: single quotes, switching to double quotes when
the text holds a single quote but no double quote (as the runtime does). -/
def strRepr (s : String) : String :=
  let q :=
    if s.data.any (fun c => c == '\'') && !(s.data.any (fun c => c == '\"')) then '\"'
    else '\''
  String.mk (q :: s.data.flatMap (escChar q) ++ [q])

mutual

/-- Model of Python `repr` on the literal values handled by
`format_constant`. -/
def pyRepr : PyObj → String
  | .pnone => "None"
  | .pbool b => if b then "True" else "False"
  | .pint n => intRepr n
  | .pstr s => strRepr s
  | .ptuple xs =>
    "(" ++ pyReprList xs ++ (if xs.length == 1 then ",)" else ")")
  | .plist xs => "[" ++ pyReprList xs ++ "]"
  | .pdict es => "\x7b" ++ pyReprPairs es ++ "\x7d"
termination_by x => sizeOf x
decreasing_by all_goals simp

def pyReprList : List PyObj → String
  | [] => ""
  | [x] => pyRepr x
  | x :: xs => pyRepr x ++ ", " ++ pyReprList xs
termination_by xs => sizeOf xs
decreasing_by all_goals simp <;> omega

def pyReprPairs : List (PyObj × PyObj) → String
  | [] => ""
  | [(k, v)] => pyRepr k ++ ": " ++ pyRepr v
  | (k, v) :: es => pyRepr k ++ ": " ++ pyRepr v ++ ", " ++ pyReprPairs es
termination_by es => sizeOf es
decreasing_by all_goals simp <;> omega

end

/-- Model of `"\n".join(lines)`. -/
def joinNL : List String → String
  | [] => ""
  | [l] => l
  | l :: ls => l ++ "\n" ++ joinNL ls

/-- Constructor rank, used by the ordering model below where Python's
comparison would apply (or raise, on mixed-type keys). -/
def pyRank : PyObj → Nat
  | .pnone => 0
  | .pbool _ => 1
  | .pint _ => 2
  | .pstr _ => 3
  | .ptuple _ => 4
  | .plist _ => 5
  | .pdict _ => 6

mutual

/-- Model of Python's ordering on the (homogeneous, hashable) dict keys
`sorted(value.items())` compares; mixed-type comparisons (on which the
runtime raises `TypeError`) fall back to constructor rank. -/
def pyCmp : PyObj → PyObj → Ordering
  | .pbool a, .pbool b => compare (cond a 1 0) (cond b (1 : Nat) 0)
  | .pint a, .pint b => compare a b
  | .pstr a, .pstr b => compare a b
  | .ptuple xs, .ptuple ys => pyCmpList xs ys
  | a, b => compare (pyRank a) (pyRank b)

def pyCmpList : List PyObj → List PyObj → Ordering
  | [], [] => .eq
  | [], _ :: _ => .lt
  | _ :: _, [] => .gt
  | x :: xs, y :: ys =>
    match pyCmp x y with
    | .lt => .lt
    | .gt => .gt
    | .eq => pyCmpList xs ys

end

/-- Lexicographic order on `(key, value)` pairs, as Python's tuple
comparison inside `sorted(value.items())`. -/
def pairLE (p q : PyObj × PyObj) : Bool :=
  match pyCmp p.1 q.1 with
  | .lt => true
  | .gt => false
  | .eq =>
    match pyCmp p.2 q.2 with
    | .gt => false
    | _ => true

/-- Model of Python `sorted` on dict items: stable insertion sort. -/
def insertPair (x : PyObj × PyObj) : List (PyObj × PyObj) → List (PyObj × PyObj)
  | [] => [x]
  | y :: ys => if pairLE x y then x :: y :: ys else y :: insertPair x ys

def sortPairs : List (PyObj × PyObj) → List (PyObj × PyObj)
  | [] => []
  | x :: xs => insertPair x (sortPairs xs)

/-- `format_constant` (bytecode_utils.py lines 515-564). -/
def format_constant (name : String) (value : PyObj) (indent : Nat) : String :=
  let pre := String.mk (List.replicate indent ' ')
  match value with
  | .pdict es =>
    if es.isEmpty then pre ++ name ++ " = \x7b\x7d"
    else
      joinNL ([pre ++ name ++ " = \x7b"] ++
        (sortPairs es).map (fun p =>
          pre ++ "    " ++ pyRepr p.1 ++ ": " ++ pyRepr p.2 ++ ",") ++
        [pre ++ "\x7d"])
  | .ptuple xs =>
    if xs.isEmpty then pre ++ name ++ " = ()"
    else
      match xs.head? with
      | some (.ptuple _) =>
        joinNL ([pre ++ name ++ " = ("] ++
          xs.map (fun item => pre ++ "    " ++ pyRepr item ++ ",") ++
          [pre ++ ")"])
      | _ => pre ++ name ++ " = " ++ pyRepr (.ptuple xs)
  | .plist xs =>
    if xs.isEmpty then pre ++ name ++ " = []"
    else
      joinNL ([pre ++ name ++ " = ["] ++
        xs.map (fun item => pre ++ "    " ++ pyRepr item ++ ",") ++
        [pre ++ "]"])
  | v => pre ++ name ++ " = " ++ pyRepr v

/-- `s` holds a newline character. -/
def hasNL (s : String) : Bool :=
  s.data.any (fun c => c == '\n')

/-! ## Concrete values used by witnesses and counterexamples -/

/-- A small code object: `pass` body (one `LOAD_CONST`/`RETURN` pair). -/
def demoCodeA : CodeObj := ⟨"m", 1, [], [100, 0, 83, 0], []⟩

/-- A code object with real content (stack size 2, one referenced name). -/
def demoCodeB : CodeObj := ⟨"m", 2, ["x"], [100, 0, 100, 1, 83, 0], []⟩

/-- An index in which two code units share the bare-name suffix `m`. -/
def demoIndexTwoSuffix : List (String × CodeObj) :=
  [("A.m", demoCodeA), ("B.m", demoCodeB)]

/-- An index with a non-matching entry before the first suffix match and a
second suffix match after it. -/
def demoIndexFirstSuffix : List (String × CodeObj) :=
  [("zz", demoCodeB), ("A.m", demoCodeA), ("B.m", demoCodeB)]

/-- A successfully processed worker outcome. -/
def demoOk : DecompileResult := ⟨"x = 1\n", "pycdc", 0, none⟩

/-- A false-pass counter for the C6 counterexample: 4 stub classes detected
in both the original text `"A"` and the repaired text `"B"`. -/
def c6fp : String → Nat := fun s => if s = "A" then 4 else if s = "B" then 4 else 0

/-- A repairer that rewrites the text `"A"` to `"B"`. -/
def c6fill : String → String := fun _ => "B"

/-- A pycdc outcome with one reported marker over text `"A"`. -/
def c6input : DecompileResult := ⟨"A", "pycdc", 1, none⟩

/-- A map-construction instruction window: `BUILD_MAP`, then the pair
`("a", 1)` via `MAP_ADD`, then the pair `("a", 2)` via `MAP_ADD`, then
`STORE_NAME` at index 7. -/
def demoMapInstrs : List Instr :=
  [⟨0, 105, 0⟩, ⟨2, 100, 0⟩, ⟨4, 100, 1⟩, ⟨6, 147, 1⟩,
   ⟨8, 100, 0⟩, ⟨10, 100, 2⟩, ⟨12, 147, 1⟩, ⟨14, 90, 0⟩]

def demoMapConsts : List PyObj := [.pstr "a", .pint 1, .pint 2]

/-- The layout rule actually implemented by `format_constant`: multi-line
exactly for a nonempty dict, a nonempty list, and a nonempty tuple whose
first element is itself a tuple. -/
def multilinePred : PyObj → Bool
  | .pdict es => !es.isEmpty
  | .plist xs => !xs.isEmpty
  | .ptuple (x :: _) =>
    match x with
    | .ptuple _ => true
    | _ => false
  | _ => false

/-! # Theorems -/

/-! ## Shared helper lemmas -/

theorem find?_append_of_none {α : Type} (p : α → Bool) {l1 : List α}
    (h : l1.find? p = none) (l2 : List α) :
    (l1 ++ l2).find? p = l2.find? p := by
  induction l1 with
  | nil => rfl
  | cons a l ih =>
    cases hp : p a with
    | true =>
      rw [List.find?_cons_of_pos _ hp] at h
      exact absurd h (by simp)
    | false =>
      rw [List.find?_cons_of_neg _ (by simp [hp])] at h
      rw [List.cons_append, List.find?_cons_of_neg _ (by simp [hp])]
      exact ih h

/-! ## C1 — completeness is not gated on an independent syntax check for
every backend -/

/-- **C1, counterexample.** The claim says every backend's output has its
syntactic validity checked, independently of the backend's self-report,
before the pipeline can return the outcome as complete.  False:
`decompile_with_decompyle3` consults no validator at all — with a validator
that rejects every text, its outcome on `stdout = "x = ("` is still
`is_complete`. -/
theorem c1_counterexample :
    ¬ (∀ (validate : String → Bool) (stdout stderr : String) (rc : Int),
        (decompile_with_decompyle3 stdout stderr rc).is_complete = true →
        validate (decompile_with_decompyle3 stdout stderr rc).source = true) := by
  intro h
  have h2 := h (fun _ => false) "x = (" "" 0 (by decide)
  simp at h2

/-- **C1, amended.** Only the pycdc backend's completeness is gated on the
independent syntax check (an outcome of `decompile_with_pycdc` that is
`is_complete` implies the validator accepted the text), and the
directory-level `process_file` re-validation never leaves a non-empty
syntactically invalid outcome complete; `decompile_with_decompyle3` and
`decompile_with_pylingual` perform no such check. -/
theorem c1_amended :
    (∀ (pycdcBuilt : Bool) (validate : String → Bool) (stdout stderr : String),
        (decompile_with_pycdc pycdcBuilt validate stdout stderr).is_complete = true →
        validate stdout = true) ∧
    (∀ (validate : String → Bool) (r : DecompileResult),
        (process_file_validate validate r).is_complete = true →
        r.source = "" ∨ validate r.source = true) := by
  constructor
  · intro pycdcBuilt validate stdout stderr h
    by_cases hv : validate stdout = true
    · exact hv
    · exfalso
      unfold decompile_with_pycdc at h
      by_cases h1 : (!pycdcBuilt) = true
      · rw [if_pos h1] at h
        simp [DecompileResult.is_complete] at h
      · rw [if_neg h1] at h
        by_cases h2 : pyStrip stdout = ""
        · rw [if_pos h2] at h
          simp [DecompileResult.is_complete] at h
        · rw [if_neg h2] at h
          simp only [Bool.not_eq_true] at hv
          simp [DecompileResult.is_complete, hv] at h
  · intro validate r h
    by_cases hs : r.source = ""
    · exact Or.inl hs
    · refine Or.inr ?_
      by_contra hv
      simp only [Bool.not_eq_true] at hv
      have e : process_file_validate validate r =
          ⟨"# SYNTAX ERROR - Decompilation produced invalid Python\n" ++ r.source,
            r.tool, max r.incomplete_count 1, some "Syntax error in output"⟩ := by
        unfold process_file_validate
        simp [hs, hv]
      rw [e] at h
      simp [DecompileResult.is_complete] at h

/-! ## C3 — the completeness classifier's four conditions -/

/-- **C3.** `classify` (`is_empty_code_object`) returns `EMPTY_CONFIRMED`
iff all four conditions hold: no nested code objects in the constant pool,
maximum stack size at most 1, empty referenced-name table, and instruction
stream shorter than the fixed threshold (at most 10 bytes); violating any
single one yields `STUB_SUSPECTED`. -/
theorem c3_classify_empty_iff :
    ∀ c : CodeObj,
      classify c = CompletenessVerdict.EMPTY_CONFIRMED ↔
        (c.co_consts.all (fun k => !k.isCode) = true ∧
          c.co_stacksize ≤ 1 ∧
          c.co_names = [] ∧
          c.co_code.length < 11) := by
  intro c
  have hcl : classify c = CompletenessVerdict.EMPTY_CONFIRMED ↔
      is_empty_code_object c = true := by
    unfold classify
    split <;> simp_all
  rw [hcl]
  unfold is_empty_code_object
  constructor
  · intro h
    split_ifs at h with h1 h2 h3
    refine ⟨?_, by omega, ?_, ?_⟩
    · simp only [List.all_eq_true, Bool.not_eq_true']
      simpa using h1
    · have : c.co_names.isEmpty = true := by simpa using h3
      simpa [List.isEmpty_iff] using this
    · simp only [decide_eq_true_eq] at h
      omega
  · rintro ⟨h1, h2, h3, h4⟩
    have g1 : c.co_consts.any (fun k => k.isCode) = false := by
      simp only [List.all_eq_true, Bool.not_eq_true'] at h1
      simp only [List.any_eq_false]
      intro k hk
      simp [h1 k hk]
    have g3 : c.co_names.isEmpty = true := by simp [h3]
    rw [if_neg (by simp [g1]), if_neg (by omega), if_neg (by simp [g3])]
    simp only [decide_eq_true_eq]
    omega

/-! ## C4 — suffix-lookup silently picks the first candidate -/

/-- **C4, counterexample.** The claim says a lookup raises `Ambiguous`
rather than silently picking a candidate when more than one code unit
shares the suffix.  False: on an index holding both `A.m` and `B.m`,
`get_code` for `m` silently returns the `A.m` entry, where the spec's
lookup contract (modelled by `lookup_spec`) answers `ambiguous`. -/
theorem c4_counterexample :
    get_code demoIndexTwoSuffix "m" = some demoCodeA ∧
    lookup_spec demoIndexTwoSuffix "m" = LookupResult.ambiguous := by
  refine ⟨by decide, by decide⟩

/-- **C4, amended.** `get_code` returns the exact qualified-name match when
one exists; when none exists it returns the first (in index order) code
unit whose qualified name ends in `"." ++ name`, even when later entries
also match the suffix — no ambiguity is detected; and it returns `none`
when neither an exact nor a suffix match exists. -/
theorem c4_amended :
    (∀ (objs : List (String × CodeObj)) (name : String) (kv : String × CodeObj),
        objs.find? (fun kv => kv.1 == name) = some kv →
        get_code objs name = some kv.2) ∧
    (∀ (objs : List (String × CodeObj)) (name : String),
        (∀ kv ∈ objs, kv.1 ≠ name ∧ pyEndsWith kv.1 ("." ++ name) = false) →
        get_code objs name = none) ∧
    (∀ (pre post : List (String × CodeObj)) (kv : String × CodeObj) (name : String),
        (∀ p ∈ pre, p.1 ≠ name ∧ pyEndsWith p.1 ("." ++ name) = false) →
        (∀ q ∈ post, q.1 ≠ name) →
        kv.1 ≠ name →
        pyEndsWith kv.1 ("." ++ name) = true →
        get_code (pre ++ kv :: post) name = some kv.2) := by
  refine ⟨?_, ?_, ?_⟩
  · intro objs name kv h
    unfold get_code
    rw [h]
  · intro objs name h
    have e1 : objs.find? (fun kv => kv.1 == name) = none := by
      rw [List.find?_eq_none]
      intro kv hkv
      simpa using (h kv hkv).1
    have e2 : objs.find? (fun kv => pyEndsWith kv.1 ("." ++ name) || kv.1 == name) = none := by
      rw [List.find?_eq_none]
      intro kv hkv
      simp [(h kv hkv).1, (h kv hkv).2]
    unfold get_code
    rw [e1, e2]
    rfl
  · intro pre post kv name hpre hpost hne hsuf
    have e1 : (pre ++ kv :: post).find? (fun kv => kv.1 == name) = none := by
      rw [List.find?_eq_none]
      intro q hq
      simp only [List.mem_append, List.mem_cons] at hq
      rcases hq with hq | hq | hq
      · simpa using (hpre q hq).1
      · simpa [hq] using hne
      · simpa using hpost q hq
    have epre : pre.find? (fun kv => pyEndsWith kv.1 ("." ++ name) || kv.1 == name) = none := by
      rw [List.find?_eq_none]
      intro p hp
      simp [(hpre p hp).1, (hpre p hp).2]
    have e2 : (pre ++ kv :: post).find?
        (fun kv => pyEndsWith kv.1 ("." ++ name) || kv.1 == name) = some kv := by
      rw [find?_append_of_none _ epre]
      simp [List.find?_cons, hsuf]
    unfold get_code
    rw [e1, e2]
    rfl

/-- **C4, witness** for the amended theorem: on
`[("zz", ·), ("A.m", ·), ("B.m", ·)]` the lookup of `m` returns the `A.m`
entry although `B.m` also matches the suffix. -/
theorem c4_amended_witness :
    get_code demoIndexFirstSuffix "m" = some demoCodeA :=
  c4_amended.2.2 [("zz", demoCodeB)] [("B.m", demoCodeB)] ("A.m", demoCodeA) "m"
    (by decide) (by decide) (by decide) (by decide)

/-! ## C10 — unlocatable bytecode means "genuinely empty" -/

/-- **C10.** If the index contains no code object matching the name
(neither an exact nor a suffix match), `is_truly_empty_function` returns
`true`: the function is classified as genuinely empty. -/
theorem c10_missing_code_truly_empty :
    ∀ (code_objects : List (String × CodeObj)) (func_name : String),
      (∀ kv ∈ code_objects,
          kv.1 ≠ func_name ∧ pyEndsWith kv.1 ("." ++ func_name) = false) →
      is_truly_empty_function code_objects func_name = true := by
  intro objs name h
  have e1 : objs.find? (fun kv => kv.1 == name) = none := by
    rw [List.find?_eq_none]
    intro kv hkv
    simpa using (h kv hkv).1
  have e2 : objs.find? (fun kv => pyEndsWith kv.1 ("." ++ name) || kv.1 == name) = none := by
    rw [List.find?_eq_none]
    intro kv hkv
    simp [(h kv hkv).1, (h kv hkv).2]
  unfold is_truly_empty_function get_code
  rw [e1, e2]
  rfl

/-- **C10, witness**: a name whose bytecode is absent from a concrete
index. -/
theorem c10_witness :
    is_truly_empty_function [("foo", demoCodeA)] "bar" = true :=
  c10_missing_code_truly_empty [("foo", demoCodeA)] "bar" (by decide)

/-! ## C2 — a worker exception aborts the directory fan-out -/

/-- **C2, counterexample.** The claim says an exception raised while
processing one artifact's pipeline is caught and converted into a
failed-outcome record, so the fan-out never aborts.  False: `process_file`
has no handler and `future.result()` re-raises, so one raised exception
aborts the aggregation — here the second worker's exception ends the run
with the exception instead of a statistics record (the first worker's
result is not even counted). -/
theorem c2_counterexample :
    decompile_directory_collect
        [Except.ok demoOk, Except.error "OSError: disk full"] =
      Except.error "OSError: disk full" := by
  rfl

/-- Each statistics update counts the result exactly once: total grows by
one and exactly one of the complete/incomplete/failed buckets grows by
one. -/
theorem update_stats_counts (st : RunStats) (r : DecompileResult) :
    (update_stats st r).total = st.total + 1 ∧
    (update_stats st r).complete + (update_stats st r).incomplete +
        (update_stats st r).failed =
      st.complete + st.incomplete + st.failed + 1 := by
  unfold update_stats
  split_ifs <;> simp <;> omega

theorem collect_go_ok (f : RunStats → DecompileResult → RunStats)
    (hf : ∀ st r, (f st r).total = st.total + 1 ∧
        (f st r).complete + (f st r).incomplete + (f st r).failed =
          st.complete + st.incomplete + st.failed + 1) :
    ∀ (outcomes : List (Except String DecompileResult)) (st : RunStats),
      (∀ o ∈ outcomes, o.isOk = true) →
      ∃ st', (outcomes.foldlM (fun st o => do pure (f st (← o))) st) = .ok st' ∧
        st'.total = st.total + outcomes.length ∧
        st'.complete + st'.incomplete + st'.failed =
          st.complete + st.incomplete + st.failed + outcomes.length := by
  intro outcomes
  induction outcomes with
  | nil => intro st _; exact ⟨st, rfl, by simp, by simp⟩
  | cons o os ih =>
    intro st h
    have ho : o.isOk = true := h o (by simp)
    cases o with
    | error e => simp [Except.isOk, Except.toBool] at ho
    | ok r =>
      obtain ⟨st', h1, h2, h3⟩ := ih (f st r) (fun o ho => h o (by simp [ho]))
      refine ⟨st', ?_, ?_, ?_⟩
      · simpa [List.foldlM] using h1
      · rw [h2, (hf st r).1]
        simp only [List.length_cons]
        omega
      · rw [h3]
        have := (hf st r).2
        simp only [List.length_cons]
        omega

/-- **C2, amended.** Exceptions are contained one level further down: an
exception inside a backend invocation is caught there and converted into a
failed outcome (shown for the pylingual backend, whose `except Exception`
produces an error-marked `MAX_INCOMPLETE` outcome), so backend failures
never abort a run; and whenever no worker raises, the fan-out records every
artifact exactly once with `complete + incomplete + failed = total`.  But an
exception that escapes `process_file` itself propagates out of
`decompile_directory` (counterexample above) — worker-level exceptions are
not converted into failed-outcome records. -/
theorem c2_amended :
    (∀ e : String,
        (decompile_with_pylingual true (Except.error e)).is_complete = false ∧
        (decompile_with_pylingual true (Except.error e)).error.isSome = true ∧
        (decompile_with_pylingual true (Except.error e)).incomplete_count =
          MAX_INCOMPLETE) ∧
    (∀ outcomes : List (Except String DecompileResult),
        (∀ o ∈ outcomes, o.isOk = true) →
        ∃ st, decompile_directory_collect outcomes = .ok st ∧
          st.total = outcomes.length ∧
          st.complete + st.incomplete + st.failed = st.total) := by
  constructor
  · intro e
    refine ⟨?_, ?_, ?_⟩ <;> simp [decompile_with_pylingual, DecompileResult.is_complete]
  · intro outcomes h
    obtain ⟨st, h1, h2, h3⟩ :=
      collect_go_ok update_stats update_stats_counts outcomes initStats h
    refine ⟨st, h1, ?_, ?_⟩
    · simpa [initStats] using h2
    · rw [h3, h2]
      simp [initStats]

/-! ## C5 — LLM recovery output is valid or identical to its input -/

theorem fix_syntax_errors_valid {validate : String → Bool}
    {agentCode : Option String} {source f : String}
    (hsrc : validate source = false)
    (h : fix_syntax_errors validate agentCode source = some f) :
    validate f = true := by
  unfold fix_syntax_errors at h
  rw [if_neg (by simp [hsrc])] at h
  cases agentCode with
  | none => simp at h
  | some code =>
    dsimp only at h
    split_ifs at h with hc
    injection h with hf
    exact hf ▸ hc

theorem recoverStage2_valid_or
    (validate : String → Bool) (fullAgent2 : Option String)
    (findItems : String → Bool) (splice : String → String)
    (source working : String) (count : Nat)
    (hw : validate working = true ∨ working = source) :
    validate (recoverStage2 validate fullAgent2 findItems splice source working count).1 = true ∨
    (recoverStage2 validate fullAgent2 findItems splice source working count).1 = source := by
  unfold recoverStage2
  by_cases h1 : (!findItems working &&
      containsSub working "# WARNING: Decompyle incomplete") = true
  · rw [if_pos h1]
    cases fullAgent2 with
    | none => simpa using hw
    | some recovered =>
      dsimp only
      by_cases hr : (validate recovered && !containsSub recovered "# WARNING:") = true
      · rw [if_pos hr]
        simp only [Bool.and_eq_true] at hr
        exact Or.inl hr.1
      · rw [if_neg hr]
        simpa using hw
  · rw [if_neg h1]
    by_cases h2 : (!findItems working) = true
    · rw [if_pos h2]
      simpa using hw
    · rw [if_neg h2]
      by_cases hs : validate (splice working) = true
      · rw [if_pos hs]
        exact Or.inl hs
      · rw [if_neg hs]
        exact Or.inr rfl

/-- **C5.** For every validator, agent behaviour, item scan and splice
result, `recover_incomplete_file` returns a text that is either accepted by
the (final whole-document) syntax validation or textually identical to its
input: a spliced result that fails the final validation is never
committed. -/
theorem c5_recovery_valid_or_identical :
    ∀ (validate : String → Bool) (fixAgent fullAgent1 fullAgent2 : Option String)
      (findItems : String → Bool) (splice : String → String) (source : String),
      validate (recover_incomplete_file validate fixAgent fullAgent1 fullAgent2
          findItems splice source).1 = true ∨
      (recover_incomplete_file validate fixAgent fullAgent1 fullAgent2
          findItems splice source).1 = source := by
  intro validate fixAgent fullAgent1 fullAgent2 findItems splice source
  unfold recover_incomplete_file
  by_cases hv : validate source = true
  · rw [if_pos hv]
    exact recoverStage2_valid_or validate fullAgent2 findItems splice source source 0
      (Or.inr rfl)
  · rw [if_neg hv]
    simp only [Bool.not_eq_true] at hv
    cases hfix : fix_syntax_errors validate fixAgent source with
    | some fixed =>
      exact recoverStage2_valid_or validate fullAgent2 findItems splice source fixed 1
        (Or.inl (fix_syntax_errors_valid hv hfix))
    | none =>
      cases fullAgent1 with
      | none => exact Or.inr rfl
      | some recovered =>
        simp only
        split_ifs with hr
        · exact Or.inl hr
        · exact Or.inr rfl

/-! ## C6 — the repair pass and the computed incompleteness count -/

/-- **C6, counterexample.** The claim says the repair pass's output never
has a computed incompleteness count greater than that of its input.  False
under the code's own count (`_count_incomplete`): the adopted outcome
stores its freshly computed count in `incomplete_count`, and recomputing
`_count_incomplete` on the adopted outcome adds the false-pass count again.
Concretely (`c6fp`/`c6fill`/`c6input`): the input's computed count is
`1 + 4 = 5`, the repaired text's computed count is `0 + 4 = 4 < 5`, so it
is adopted — and recomputing on the adopted outcome gives `4 + 4 = 8 > 5`. -/
theorem c6_counterexample :
    count_incomplete c6fp (fun _ => true) true
        (try_improve_with_bytecode c6fp (fun _ => true) c6fill true c6input) >
      count_incomplete c6fp (fun _ => true) true c6input := by
  decide

/-- **C6, amended.** The repaired text is adopted exactly when its computed
incompleteness count — `_count_incomplete` of the repaired text with a
zeroed marker field — is strictly lower than the input's computed count;
otherwise the input outcome is returned unchanged.  The adopted outcome
stores that strictly lower count (so the stored count never exceeds the
input's computed count), but recomputing the count on the adopted outcome
itself can exceed the input's (counterexample above), because the stored
count is added to the re-counted false passes. -/
theorem c6_amended :
    ∀ (fp : String → Nat) (validate : String → Bool) (fill : String → String)
      (hasBc : Bool) (r : DecompileResult),
      try_improve_with_bytecode fp validate fill hasBc r = r ∨
      (try_improve_with_bytecode fp validate fill hasBc r =
          ⟨fill r.source, r.tool ++ "+bytecode",
            count_incomplete fp validate true
              ⟨fill r.source, r.tool ++ "+bytecode", 0, none⟩, none⟩ ∧
        count_incomplete fp validate true
            ⟨fill r.source, r.tool ++ "+bytecode", 0, none⟩ <
          count_incomplete fp validate true r) := by
  intro fp validate fill hasBc r
  unfold try_improve_with_bytecode
  dsimp only
  split_ifs with h1 h2
  · exact Or.inl rfl
  · exact Or.inr ⟨rfl, h2⟩
  · exact Or.inl rfl

/-! ## C7 — constant recovery only proposes absent, stored names -/

theorem mem_insertStr {x y : String} {l : List String} :
    y ∈ insertStr x l ↔ y = x ∨ y ∈ l := by
  induction l with
  | nil => simp [insertStr]
  | cons a t ih =>
    unfold insertStr
    split_ifs with h
    · constructor
      · intro hm
        rcases List.mem_cons.mp hm with h1 | h1
        · exact Or.inl h1
        · exact Or.inr h1
      · intro hm
        rcases hm with h1 | h1
        · exact List.mem_cons.mpr (Or.inl h1)
        · exact List.mem_cons.mpr (Or.inr h1)
    · constructor
      · intro hm
        rcases List.mem_cons.mp hm with h1 | h1
        · exact Or.inr (List.mem_cons.mpr (Or.inl h1))
        · rcases ih.mp h1 with h2 | h2
          · exact Or.inl h2
          · exact Or.inr (List.mem_cons.mpr (Or.inr h2))
      · intro hm
        rcases hm with h1 | h1
        · exact List.mem_cons.mpr (Or.inr (ih.mpr (Or.inl h1)))
        · rcases List.mem_cons.mp h1 with h2 | h2
          · exact List.mem_cons.mpr (Or.inl h2)
          · exact List.mem_cons.mpr (Or.inr (ih.mpr (Or.inr h2)))

theorem mem_sortStrs {y : String} {l : List String} :
    y ∈ sortStrs l ↔ y ∈ l := by
  induction l with
  | nil => simp [sortStrs]
  | cons a t ih =>
    unfold sortStrs
    rw [mem_insertStr, ih]
    simp

/-- **C7.** Every name the missing-constant detector proposes is (a) absent
from the parsed source's top-level bindings — assignments, annotated
assignments, function and class definitions — and from the top-level
imports, and (b) present as a `STORE_NAME` target of the module's original
bytecode.  (`topLevel ⊆ allNodes` reflects that `ast.walk` reaches every
top-level node.) -/
theorem c7_proposals_absent_and_stored :
    ∀ (topLevel allNodes : List PyStmt) (co_names : List String)
      (bytecode : List Nat) (missing : List String) (name : String),
      (∀ s ∈ topLevel, s ∈ allNodes) →
      find_missing_module_constants (some (topLevel, allNodes)) co_names bytecode =
        some missing →
      name ∈ missing →
      name ∉ bindingNames topLevel ∧
      name ∉ importNames topLevel ∧
      ∃ stored, storedNamesE bytecode co_names = some stored ∧ name ∈ stored := by
  intro topLevel allNodes co_names bytecode missing name hsub hfind hmem
  unfold find_missing_module_constants at hfind
  cases hst : storedNamesE bytecode co_names with
  | none => rw [hst] at hfind; simp at hfind
  | some stored =>
    rw [hst] at hfind
    simp only [Option.some.injEq] at hfind
    subst hfind
    rw [mem_sortStrs, List.mem_filter] at hmem
    obtain ⟨hmem, hpred⟩ := hmem
    simp only [Bool.and_eq_true, Bool.not_eq_true'] at hpred
    have hdef : name ∉ bindingNames topLevel ++ importNames allNodes := by
      simpa using hpred.1.1.1
    refine ⟨?_, ?_, stored, rfl, List.mem_dedup.mp hmem⟩
    · intro hc
      exact hdef (List.mem_append.mpr (Or.inl hc))
    · intro hc
      refine hdef (List.mem_append.mpr (Or.inr ?_))
      unfold importNames at hc ⊢
      rw [List.mem_flatMap] at hc ⊢
      obtain ⟨s, hs, hn⟩ := hc
      exact ⟨s, hsub s hs, hn⟩

/-- **C7, witness**: bytecode storing name `B` (opcode 90, argument 0) with
source binding only `A`: the proposal `B` is absent from the top-level
bindings and present as a store target. -/
theorem c7_witness :
    "B" ∉ bindingNames [PyStmt.assign [some "A"]] ∧
    "B" ∉ importNames [PyStmt.assign [some "A"]] ∧
    ∃ stored, storedNamesE [90, 0] ["B"] = some stored ∧ "B" ∈ stored :=
  c7_proposals_absent_and_stored [PyStmt.assign [some "A"]]
    [PyStmt.assign [some "A"]] ["B"] [90, 0] ["B"] "B"
    (by decide) (by decide) (by decide)

/-! ## C8 — map construction recovers last-write-wins mappings -/

/-- One forward-scan step updates the dict exactly by inserting the pairs
the scan encounters at that instruction, in order. -/
theorem dictStep_eq_foldl (instrs : List Instr) (constants : List PyObj)
    (d : List (PyObj × PyObj)) (i : Nat) :
    dictStep instrs constants d i =
      (pairsAt instrs constants i).foldl (fun d p => dictSet d p.1 p.2) d := by
  unfold dictStep pairsAt
  cases h : instrs[i]? with
  | none => rfl
  | some ins =>
    dsimp only
    by_cases hma : (ins.op == MAP_ADD) = true
    · rw [if_pos hma, if_pos hma]
      by_cases h2 : 2 ≤ i
      · rw [if_pos h2, if_pos h2]
        cases hk : instrs[i - 2]? with
        | none => cases hv : instrs[i - 1]? <;> rfl
        | some kIns =>
          cases hv : instrs[i - 1]? with
          | none => rfl
          | some vIns =>
            dsimp only
            by_cases hops : (kIns.op == LOAD_CONST && vIns.op == LOAD_CONST) = true
            · rw [if_pos hops, if_pos hops]
              cases hck : constants[kIns.arg]? with
              | none => cases hcv : constants[vIns.arg]? <;> rfl
              | some k =>
                cases hcv : constants[vIns.arg]? with
                | none => rfl
                | some v => rfl
            · rw [if_neg hops, if_neg hops]
              rfl
      · rw [if_neg h2, if_neg h2]
        rfl
    · rw [if_neg hma, if_neg hma]
      by_cases hbc : (ins.op == BUILD_CONST_KEY_MAP) = true
      · rw [if_pos hbc, if_pos hbc]
        cases hkeys : (if 1 ≤ i then instrs[i - 1]? else none) with
        | none => rfl
        | some keysIns =>
          dsimp only
          by_cases hko : (keysIns.op == LOAD_CONST) = true
          · rw [if_pos hko, if_pos hko]
            cases hc : constants[keysIns.arg]? with
            | none => rfl
            | some keysObj =>
              cases keysObj with
              | ptuple ks =>
                dsimp only
                by_cases hlen : (ks.length == ins.arg) = true
                · rw [if_pos hlen, if_pos hlen]
                  by_cases hvlen :
                      ((gatherVals instrs constants i ins.arg).length == ins.arg) = true
                  · rw [if_pos hvlen, if_pos hvlen]
                  · rw [if_neg hvlen, if_neg hvlen]
                    rfl
                · rw [if_neg hlen, if_neg hlen]
                  rfl
              | pnone => rfl
              | pbool b => rfl
              | pint n => rfl
              | pstr s => rfl
              | plist xs => rfl
              | pdict es => rfl
          · rw [if_neg hko, if_neg hko]
            rfl
      · rw [if_neg hbc, if_neg hbc]
        rfl

/-- The whole forward loop equals a single last-write-wins fold over the
pairs collected in encounter order. -/
theorem foldl_dictStep_eq (instrs : List Instr) (constants : List PyObj) :
    ∀ (idxs : List Nat) (d : List (PyObj × PyObj)),
      idxs.foldl (dictStep instrs constants) d =
        (idxs.flatMap (pairsAt instrs constants)).foldl
          (fun d p => dictSet d p.1 p.2) d := by
  intro idxs
  induction idxs with
  | nil => intro d; rfl
  | cons i t ih =>
    intro d
    rw [List.foldl_cons, ih, List.flatMap_cons, List.foldl_append, dictStep_eq_foldl]

theorem dictLoop_eq_lastWriteWins (instrs : List Instr) (constants : List PyObj)
    (first stop : Nat) :
    dictLoop instrs constants first stop [] =
      lastWriteWins (collectPairs instrs constants first stop) := by
  unfold dictLoop collectPairs lastWriteWins
  exact foldl_dictStep_eq instrs constants (List.range' first (stop - first)) []

/-- `find?` over an append when the left part already finds a match. -/
theorem find?_append_left {α : Type} (p : α → Bool) {l1 : List α} {x : α}
    (h : l1.find? p = some x) (l2 : List α) :
    (l1 ++ l2).find? p = some x := by
  induction l1 with
  | nil => simp at h
  | cons a t ih =>
    rw [List.find?_cons] at h
    rw [List.cons_append, List.find?_cons]
    cases hp : p a with
    | true =>
      simp only [hp] at h ⊢
      exact h
    | false =>
      simp only [hp] at h ⊢
      exact ih h

/-- Looking up a key other than the rewritten one is unchanged by the
value-replacing map inside `dictSet` (the map preserves keys). -/
theorem dictFind_map_ne {a b k : PyObj} (hak : a ≠ k) :
    ∀ d : List (PyObj × PyObj),
      dictFind (d.map (fun p => if p.1 == a then (p.1, b) else p)) k = dictFind d k := by
  intro d
  induction d with
  | nil => rfl
  | cons x t ih =>
    simp only [List.map_cons]
    unfold dictFind at ih ⊢
    rw [List.find?_cons, List.find?_cons]
    have hfst : (if (x.1 == a) = true then (x.1, b) else x).1 = x.1 := by
      split <;> rfl
    rw [hfst]
    by_cases hxk : x.1 = k
    · have hxa : (x.1 == a) = false := by
        rw [beq_eq_false_iff_ne]
        intro he
        exact hak (he ▸ hxk)
      have hxkt : (x.1 == k) = true := beq_iff_eq.mpr hxk
      simp [hxkt, hxa]
    · have hxkf : (x.1 == k) = false := beq_eq_false_iff_ne.mpr hxk
      simp only [hxkf]
      exact ih

/-- Looking up the rewritten key after the value-replacing map inside
`dictSet` yields the new value (when the key was present). -/
theorem dictFind_map_self (a b : PyObj) :
    ∀ d : List (PyObj × PyObj), (d.any fun p => p.1 == a) = true →
      dictFind (d.map (fun p => if p.1 == a then (p.1, b) else p)) a = some b := by
  intro d
  induction d with
  | nil => intro h; simp at h
  | cons x t ih =>
    intro h
    simp only [List.map_cons]
    unfold dictFind
    rw [List.find?_cons]
    have hfst : (if (x.1 == a) = true then (x.1, b) else x).1 = x.1 := by
      split <;> rfl
    rw [hfst]
    cases hx : (x.1 == a) with
    | true =>
      simp only [hx]
      simp [hx]
    | false =>
      simp only [hx]
      apply ih
      simpa [List.any_cons, hx] using h

/-- Looking up a key after a `dictSet`: the set key maps to the new value,
every other key is untouched. -/
theorem dictFind_dictSet (a b k : PyObj) :
    ∀ d, dictFind (dictSet d a b) k = if a = k then some b else dictFind d k := by
  intro d
  unfold dictSet
  by_cases hmem : (d.any fun p => p.1 == a) = true
  · rw [if_pos hmem]
    by_cases hak : a = k
    · subst hak
      rw [if_pos rfl]
      exact dictFind_map_self a b d hmem
    · rw [if_neg hak]
      exact dictFind_map_ne hak d
  · rw [if_neg hmem]
    have hnone_a : d.find? (fun p => p.1 == a) = none := by
      rw [List.find?_eq_none]
      intro p hp hpa
      exact hmem (List.any_eq_true.mpr ⟨p, hp, hpa⟩)
    by_cases hak : a = k
    · subst hak
      rw [if_pos rfl]
      unfold dictFind
      rw [find?_append_of_none _ hnone_a]
      simp [List.find?_cons]
    · rw [if_neg hak]
      unfold dictFind
      cases hfd : d.find? (fun p => p.1 == k) with
      | some q => rw [find?_append_left _ hfd]
      | none =>
        rw [find?_append_of_none _ hfd, List.find?_cons]
        have hne : (((a, b) : PyObj × PyObj).1 == k) = false :=
          beq_eq_false_iff_ne.mpr hak
        simp only [hne]
        rfl

/-- Folding pairs with `dictSet` realises last-write-wins: a key's final
value is the value of the last inserted pair with that key. -/
theorem dictFind_foldl (k : PyObj) :
    ∀ (ps : List (PyObj × PyObj)) (d : List (PyObj × PyObj)),
      dictFind (ps.foldl (fun d p => dictSet d p.1 p.2) d) k =
        match ps.reverse.find? (fun p => p.1 == k) with
        | some p => some p.2
        | none => dictFind d k := by
  intro ps
  induction ps with
  | nil => intro d; rfl
  | cons p t ih =>
    intro d
    rw [List.foldl_cons, ih, List.reverse_cons]
    cases hrev : t.reverse.find? (fun p => p.1 == k) with
    | some q =>
      rw [find?_append_left _ hrev]
    | none =>
      rw [find?_append_of_none _ hrev, List.find?_cons]
      by_cases hpk : p.1 = k
      · have ht : (p.1 == k) = true := beq_iff_eq.mpr hpk
        simp only [hrev, ht]
        rw [dictFind_dictSet, if_pos hpk]
      · have hf : (p.1 == k) = false := beq_eq_false_iff_ne.mpr hpk
        simp only [hrev, hf, List.find?_nil]
        rw [dictFind_dictSet, if_neg hpk]

/-- **C8.** Whenever the store is not preceded by a single literal load
(the map-construction branch of `_trace_stack_value`), the traced value is
exactly the last-write-wins mapping over the key/value literal pairs of the
construction window in encounter order (`none` when no pair was collected);
and in that mapping every key's value is the value of the **last**
encountered pair with that key. -/
theorem c8_trace_last_write_wins :
    ∀ (instrs : List Instr) (store_idx : Nat) (constants : List PyObj)
      (prev : Instr),
      0 < store_idx →
      instrs[store_idx - 1]? = some prev →
      (prev.op == LOAD_CONST) = false →
      (trace_stack_value instrs store_idx constants =
        (if (lastWriteWins (encounterPairs instrs constants store_idx)).isEmpty then
          none
        else some (.pdict (lastWriteWins (encounterPairs instrs constants store_idx))))) ∧
      (∀ k, dictFind (lastWriteWins (encounterPairs instrs constants store_idx)) k =
        ((encounterPairs instrs constants store_idx).reverse.find?
            (fun p => p.1 == k)).map (fun p => p.2)) := by
  intro instrs store_idx constants prev h0 hprev hop
  constructor
  · unfold trace_stack_value
    rw [if_neg (by simpa using Nat.pos_iff_ne_zero.mp h0), hprev]
    dsimp only
    rw [if_neg (by simp [hop])]
    unfold encounterPairs
    cases hbm : findFirstBuildMap instrs store_idx with
    | none => rfl
    | some first =>
      dsimp only
      rw [dictLoop_eq_lastWriteWins]
  · intro k
    unfold lastWriteWins
    rw [dictFind_foldl]
    cases h : (encounterPairs instrs constants store_idx).reverse.find?
        (fun p => p.1 == k) <;> rfl

/-- **C8, witness**: the window builds `{"a": 1}` then overwrites to
`{"a": 2}`; the traced value keeps the later pair. -/
theorem c8_witness :
    trace_stack_value demoMapInstrs 7 demoMapConsts =
      some (.pdict [(.pstr "a", .pint 2)]) := by
  have h := (c8_trace_last_write_wins demoMapInstrs 7 demoMapConsts
    ⟨12, 147, 1⟩ (by decide) (by decide) (by decide)).1
  rw [h]
  decide

/-! ## C9 — the formatter's single-line / multi-line layout rule -/

theorem data_append_str (a b : String) : (a ++ b).data = a.data ++ b.data := by
  cases a
  cases b
  rfl

theorem hasNL_append (a b : String) :
    hasNL (a ++ b) = (hasNL a || hasNL b) := by
  simp [hasNL, data_append_str, List.any_append]

theorem hasNL_eq_false_iff (s : String) : hasNL s = false ↔ '\n' ∉ s.data := by
  simp only [hasNL, List.any_eq_false, beq_iff_eq]
  constructor
  · intro h hm
    exact (h _ hm) rfl
  · intro h x hx he
    exact h (he ▸ hx)

theorem nl_not_mem_natDigits :
    ∀ (fuel n : Nat) (acc : List Char), '\n' ∉ acc → '\n' ∉ natDigits fuel n acc := by
  intro fuel
  induction fuel with
  | zero =>
    intro n acc hacc
    unfold natDigits
    intro hmem
    rcases List.mem_cons.mp hmem with h | h
    · revert h
      unfold digitChar
      split <;> decide
    · exact hacc h
  | succ fuel ih =>
    intro n acc hacc
    unfold natDigits
    split
    · intro hmem
      rcases List.mem_cons.mp hmem with h | h
      · revert h
        unfold digitChar
        split <;> decide
      · exact hacc h
    · refine ih (n / 10) _ ?_
      intro hmem
      rcases List.mem_cons.mp hmem with h | h
      · revert h
        unfold digitChar
        split <;> decide
      · exact hacc h

theorem hasNL_intRepr (n : Int) : hasNL (intRepr n) = false := by
  rw [hasNL_eq_false_iff]
  unfold intRepr
  split
  · intro hmem
    rcases List.mem_cons.mp hmem with h | h
    · exact absurd h (by decide)
    · exact nl_not_mem_natDigits n.natAbs n.natAbs [] (by simp) h
  · exact nl_not_mem_natDigits n.toNat n.toNat [] (by simp)

theorem nl_not_mem_escChar (q c : Char) (hq : q ≠ '\n') :
    '\n' ∉ escChar q c := by
  unfold escChar
  split_ifs with h1 h2 h3 h4 h5 <;> intro hmem
  · exact absurd hmem (by decide)
  · rcases List.mem_cons.mp hmem with h | h
    · exact absurd h (by decide)
    · rcases List.mem_cons.mp h with h' | h'
      · exact hq h'.symm
      · simp at h'
  · rcases List.mem_cons.mp hmem with h | h
    · exact absurd h (by decide)
    · rcases List.mem_cons.mp h with h' | h'
      · exact absurd h' (by decide)
      · simp at h'
  · rcases List.mem_cons.mp hmem with h | h
    · exact absurd h (by decide)
    · rcases List.mem_cons.mp h with h' | h'
      · exact absurd h' (by decide)
      · simp at h'
  · rcases List.mem_cons.mp hmem with h | h
    · exact absurd h (by decide)
    · rcases List.mem_cons.mp h with h' | h'
      · exact absurd h' (by decide)
      · simp at h'
  · rcases List.mem_cons.mp hmem with h | h
    · exact h3 h.symm
    · simp at h

theorem hasNL_strRepr (s : String) : hasNL (strRepr s) = false := by
  rw [hasNL_eq_false_iff]
  unfold strRepr
  intro hmem
  simp only [String.data] at hmem
  have hq : (if s.data.any (fun c => c == '\'') && !(s.data.any fun c => c == '\"')
      then '\"' else '\'') ≠ '\n' := by
    split <;> decide
  rcases List.mem_cons.mp hmem with h | h
  · exact hq h.symm
  · rcases List.mem_append.mp h with h' | h'
    · obtain ⟨c, _, hc⟩ := List.mem_flatMap.mp h'
      exact nl_not_mem_escChar _ c hq hc
    · rcases List.mem_cons.mp h' with h'' | h''
      · exact hq h''.symm
      · simp at h''

theorem pyReprList_noNL_of (xs : List PyObj)
    (ih : ∀ x ∈ xs, '\n' ∉ (pyRepr x).data) : '\n' ∉ (pyReprList xs).data := by
  induction xs with
  | nil => simp [pyReprList]
  | cons x t iht =>
    cases t with
    | nil => simpa [pyReprList] using ih x (by simp)
    | cons y ys =>
      simp only [pyReprList, data_append_str]
      intro hmem
      rcases List.mem_append.mp hmem with h | h
      · rcases List.mem_append.mp h with h' | h'
        · exact ih x (by simp) h'
        · exact absurd h' (by decide)
      · exact iht (fun z hz => ih z (by simp [hz])) h

theorem pyReprPairs_noNL_of (es : List (PyObj × PyObj))
    (ih : ∀ p ∈ es, '\n' ∉ (pyRepr p.1).data ∧ '\n' ∉ (pyRepr p.2).data) :
    '\n' ∉ (pyReprPairs es).data := by
  induction es with
  | nil => simp [pyReprPairs]
  | cons p t iht =>
    obtain ⟨k, v⟩ := p
    cases t with
    | nil =>
      simp only [pyReprPairs, data_append_str]
      intro hmem
      rcases List.mem_append.mp hmem with h | h
      · rcases List.mem_append.mp h with h' | h'
        · exact (ih (k, v) (by simp)).1 h'
        · exact absurd h' (by decide)
      · exact (ih (k, v) (by simp)).2 h
    | cons q ys =>
      simp only [pyReprPairs, data_append_str]
      intro hmem
      rcases List.mem_append.mp hmem with h | h
      · rcases List.mem_append.mp h with h' | h'
        · rcases List.mem_append.mp h' with h'' | h''
          · rcases List.mem_append.mp h'' with h3 | h3
            · exact (ih (k, v) (by simp)).1 h3
            · exact absurd h3 (by decide)
          · exact (ih (k, v) (by simp)).2 h''
        · exact absurd h' (by decide)
      · exact iht (fun z hz => ih z (by simp [hz])) h

theorem pyRepr_noNL : ∀ v : PyObj, '\n' ∉ (pyRepr v).data
  | .pnone => by simp only [pyRepr]; decide
  | .pbool b => by cases b <;> simp only [pyRepr] <;> decide
  | .pint n => by
    have := hasNL_intRepr n
    rw [hasNL_eq_false_iff] at this
    simpa [pyRepr] using this
  | .pstr s => by
    have := hasNL_strRepr s
    rw [hasNL_eq_false_iff] at this
    simpa [pyRepr] using this
  | .ptuple xs => by
    simp only [pyRepr, data_append_str]
    intro hmem
    rcases List.mem_append.mp hmem with h | h
    · rcases List.mem_append.mp h with h' | h'
      · exact absurd h' (by decide)
      · exact pyReprList_noNL_of xs (fun x hx => pyRepr_noNL x) h'
    · revert h
      split <;> decide
  | .plist xs => by
    simp only [pyRepr, data_append_str]
    intro hmem
    rcases List.mem_append.mp hmem with h | h
    · rcases List.mem_append.mp h with h' | h'
      · exact absurd h' (by decide)
      · exact pyReprList_noNL_of xs (fun x hx => pyRepr_noNL x) h'
    · exact absurd h (by decide)
  | .pdict es => by
    simp only [pyRepr, data_append_str]
    intro hmem
    rcases List.mem_append.mp hmem with h | h
    · rcases List.mem_append.mp h with h' | h'
      · exact absurd h' (by decide)
      · exact pyReprPairs_noNL_of es
          (fun p hp => ⟨pyRepr_noNL p.1, pyRepr_noNL p.2⟩) h'
    · exact absurd h (by decide)
termination_by v => sizeOf v
decreasing_by
  all_goals
    first
      | (simp only [PyObj.ptuple.sizeOf_spec, PyObj.plist.sizeOf_spec,
           PyObj.pdict.sizeOf_spec]
         have := List.sizeOf_lt_of_mem hx
         omega)
      | (simp only [PyObj.pdict.sizeOf_spec]
         have h1 := List.sizeOf_lt_of_mem hp
         have h2 : sizeOf p.1 < sizeOf p := by
           obtain ⟨p1, p2⟩ := p; simp only [Prod.mk.sizeOf_spec]; omega
         have h3 : sizeOf p.2 < sizeOf p := by
           obtain ⟨p1, p2⟩ := p; simp only [Prod.mk.sizeOf_spec]; omega
         omega)

theorem pyRepr_hasNL (v : PyObj) : hasNL (pyRepr v) = false := by
  rw [hasNL_eq_false_iff]
  exact pyRepr_noNL v

theorem hasNL_joinNL_two (a b : String) (t : List String) :
    hasNL (joinNL (a :: b :: t)) = true := by
  have : joinNL (a :: b :: t) = a ++ "\n" ++ joinNL (b :: t) := by
    simp [joinNL]
  rw [this, hasNL_append, hasNL_append]
  have : hasNL "\n" = true := by decide
  simp [this]

theorem hasNL_joinNL_header (a c : String) (mid : List String) :
    hasNL (joinNL (a :: (mid ++ [c]))) = true := by
  cases mid with
  | nil => exact hasNL_joinNL_two a c []
  | cons m ms => exact hasNL_joinNL_two a m (ms ++ [c])

theorem hasNL_mkReplicate (n : Nat) : hasNL (String.mk (List.replicate n ' ')) = false := by
  rw [hasNL_eq_false_iff]
  intro h
  exact absurd (List.eq_of_mem_replicate h) (by decide)

/-- **C9, counterexample.** The claim says the formatter emits multi-line
output for **every** nonempty composite value (mappings, sequences).
False: the nonempty flat tuple `(1, 2, 3)` is rendered as the single line
`X = (1, 2, 3)` (only tuples whose first element is itself a tuple get the
multi-line layout). -/
theorem c9_counterexample :
    format_constant "X" (.ptuple [.pint 1, .pint 2, .pint 3]) 0 =
      "X = (1, 2, 3)" ∧
    hasNL (format_constant "X" (.ptuple [.pint 1, .pint 2, .pint 3]) 0) = false := by
  have h : format_constant "X" (.ptuple [.pint 1, .pint 2, .pint 3]) 0 =
      "X = (1, 2, 3)" := by
    simp only [format_constant, pyRepr, pyReprList]
    decide
  exact ⟨h, by rw [h]; decide⟩

/-- **C9, amended.** The formatter's layout rule is: multi-line output
exactly for a nonempty mapping, a nonempty list, and a nonempty tuple whose
first element is itself a tuple; every other value — scalars, empty
composites, and flat nonempty tuples — is rendered on a single line (the
mapping entries are rendered in the sorted order of `sortPairs`, sequence
items in encounter order). -/
theorem c9_amended :
    ∀ (name : String) (value : PyObj) (indent : Nat),
      hasNL name = false →
      hasNL (format_constant name value indent) = multilinePred value := by
  intro name value indent hname
  have hpre := hasNL_mkReplicate indent
  cases value with
  | pdict es =>
    cases es with
    | nil =>
      have hlit : hasNL " = \x7b\x7d" = false := by decide
      simp [format_constant, multilinePred, hasNL_append, hpre, hname, hlit]
    | cons p t =>
      have hne : ((p :: t).isEmpty : Bool) = false := by simp
      simp only [format_constant, multilinePred, hne, Bool.false_eq_true,
        if_false, Bool.not_false]
      rw [show ∀ (a : String) (mid : List String) (c : String),
          [a] ++ mid ++ [c] = a :: (mid ++ [c]) from by intros; simp]
      exact hasNL_joinNL_header _ _ _
  | ptuple xs =>
    cases xs with
    | nil =>
      have hlit : hasNL " = ()" = false := by decide
      simp [format_constant, multilinePred, hasNL_append, hpre, hname, hlit]
    | cons x t =>
      have hne : ((x :: t).isEmpty : Bool) = false := by simp
      cases x
      case ptuple ys =>
        simp only [format_constant, multilinePred, hne, Bool.false_eq_true,
          if_false, List.head?_cons]
        rw [show ∀ (a : String) (mid : List String) (c : String),
            [a] ++ mid ++ [c] = a :: (mid ++ [c]) from by intros; simp]
        exact hasNL_joinNL_header _ _ _
      all_goals
        have hlit : hasNL " = " = false := by decide
        simp [format_constant, multilinePred, hne, hasNL_append, hpre, hname,
          hlit, pyRepr_hasNL]
  | plist xs =>
    cases xs with
    | nil =>
      have hlit : hasNL " = []" = false := by decide
      simp [format_constant, multilinePred, hasNL_append, hpre, hname, hlit]
    | cons x t =>
      have hne : ((x :: t).isEmpty : Bool) = false := by simp
      simp only [format_constant, multilinePred, hne, Bool.false_eq_true,
        if_false, Bool.not_false]
      rw [show ∀ (a : String) (mid : List String) (c : String),
          [a] ++ mid ++ [c] = a :: (mid ++ [c]) from by intros; simp]
      exact hasNL_joinNL_header _ _ _
  | pnone =>
    have hlit : hasNL " = " = false := by decide
    simp [format_constant, multilinePred, hasNL_append, hpre, hname, hlit,
      pyRepr_hasNL]
  | pbool b =>
    have hlit : hasNL " = " = false := by decide
    simp [format_constant, multilinePred, hasNL_append, hpre, hname, hlit,
      pyRepr_hasNL]
  | pint n =>
    have hlit : hasNL " = " = false := by decide
    simp [format_constant, multilinePred, hasNL_append, hpre, hname, hlit,
      pyRepr_hasNL]
  | pstr s =>
    have hlit : hasNL " = " = false := by decide
    simp [format_constant, multilinePred, hasNL_append, hpre, hname, hlit,
      pyRepr_hasNL]

/-- **C9, witness** for the amended layout rule: a nonempty mapping is
rendered multi-line. -/
theorem c9_witness :
    hasNL (format_constant "X" (.pdict [(.pstr "a", .pint 1)]) 0) =
      multilinePred (.pdict [(.pstr "a", .pint 1)]) :=
  c9_amended "X" (.pdict [(.pstr "a", .pint 1)]) 0 (by decide)

end EN16
